import Mathlib

open Matrix

/-
Verification of the GMM estimator (gmm.py) against its specification.

The estimator is shallowly embedded over exact rationals: numpy / torch arrays
become Mathlib matrices over ℚ, the fallible linear-algebra primitive
np.linalg.inv becomes an Option-valued adjugate inverse (LinAlgError = none),
numpy.sqrt is modelled symbolically (it yields NaN, not an exception, on a
negative radicand), and the external numerical minimizer — out of scope per the
specification — is modelled by the sequence of parameter vectors at which it
evaluates the objective together with the converged point it returns.  The
/-
Support lemmas: the exact-arithmetic inverse, and positive semidefiniteness
over ℚ, used to settle the sign properties of the reported standard errors.
-/

/-
Characterization lemmas for the embedded methods.
-/

/-
The claims.
-/

instance attributes that fit and gmm_objective mutate in Python are carried as
fields of a state structure that every modelled method threads through.
-/

/-- Symbolic value of one entry of numpy.sqrt applied to an exact rational
radicand: sqrtOf q stands for the real square root of q (well defined and
non-negative exactly when 0 ≤ q), while nan records the NaN that numpy.sqrt
produces — with only a warning, no exception — on a negative radicand. -/
inductive NpSqrtVal where
  | nan : NpSqrtVal
  | sqrtOf (radicand : ℚ) : NpSqrtVal
deriving DecidableEq

/-- Model of numpy.sqrt on one exactly-represented entry: NaN on a negative
radicand, the (symbolic) square root otherwise. -/
def np_sqrt (q : ℚ) : NpSqrtVal :=
  if q < 0 then NpSqrtVal.nan else NpSqrtVal.sqrtOf q

/-- The symbolic sqrt value denotes a non-negative real number: NaN does not
denote a number at all, and sqrtOf q denotes the non-negative real √q exactly
when the radicand is non-negative. -/
def NpSqrtVal.isNonnegReal : NpSqrtVal → Prop
  | NpSqrtVal.nan => False
  | NpSqrtVal.sqrtOf q => 0 ≤ q

instance (v : NpSqrtVal) : Decidable v.isNonnegReal := by
  cases v with
  | nan => exact isFalse (fun h => h)
  | sqrtOf q => exact inferInstanceAs (Decidable (0 ≤ q))

/-- Model of np.linalg.inv / torch.inverse on an exactly-represented square
matrix: the classical inverse (reciprocal determinant times adjugate) when the
determinant is nonzero, and none — the LinAlgError raised on a singular
input — otherwise. -/
def np_linalg_inv {m : ℕ} (A : Matrix (Fin m) (Fin m) ℚ) :
    Option (Matrix (Fin m) (Fin m) ℚ) :=
  if A.det = 0 then none else some (A.det⁻¹ • A.adjugate)

/-- State of one GMMEstimator instance (gmm.py, class GMMEstimator).  The
constructor arguments moment_cond, weighting_matrix and opt are configuration;
z, y, x, W, theta, Gamma, jac_est, vθ and std_errors are the instance
attributes that fit and gmm_objective assign.  Python attributes do not exist
before their first assignment, so theorems quantify over arbitrary initial
values of the mutable fields.  The field jacfwd stands for the external
forward-mode automatic-differentiation facility (torch.func.jacfwd, argnums=3),
declared out of scope by the specification: it returns the per-observation
Jacobian of moment_cond with respect to the parameter vector, which the torch
branch of jacobian_moment_cond sums over the observation axis. -/
structure GMMEstimator (n L k : ℕ) where
  moment_cond : Matrix (Fin n) (Fin L) ℚ → (Fin n → ℚ) → Matrix (Fin n) (Fin k) ℚ →
    (Fin k → ℚ) → Matrix (Fin n) (Fin L) ℚ
  jacfwd : Matrix (Fin n) (Fin L) ℚ → (Fin n → ℚ) → Matrix (Fin n) (Fin k) ℚ →
    (Fin k → ℚ) → Fin n → Matrix (Fin L) (Fin k) ℚ
  weighting_matrix : String
  opt : String
  z : Matrix (Fin n) (Fin L) ℚ
  y : Fin n → ℚ
  x : Matrix (Fin n) (Fin k) ℚ
  W : Matrix (Fin L) (Fin L) ℚ
  theta : Fin k → ℚ
  Gamma : Matrix (Fin L) (Fin k) ℚ
  jac_est : Matrix (Fin L) (Fin k) ℚ
  vθ : Matrix (Fin k) (Fin k) ℚ
  std_errors : Option (Fin k → NpSqrtVal)

/-- gmm.py, GMMEstimator.optimal_weighting_matrix: inverse of
(1/n) · momentsᵀ · moments, computed with np.linalg.inv on the scipy backend
and torch.inverse on the torch backend (the same exact-arithmetic operation
here); on any other backend both branches are skipped and Python returns None,
modelled as none. -/
def GMMEstimator.optimal_weighting_matrix {n L k : ℕ} (est : GMMEstimator n L k)
    (moments : Matrix (Fin n) (Fin L) ℚ) : Option (Matrix (Fin L) (Fin L) ℚ) :=
  if est.opt = "scipy" then np_linalg_inv ((1 / (n : ℚ)) • (momentsᵀ * moments))
  else if est.opt = "torch" then np_linalg_inv ((1 / (n : ℚ)) • (momentsᵀ * moments))
  else none

/-- gmm.py, GMMEstimator.gmm_objective: evaluates the moment condition at the
stored data and the candidate beta, assigns self.W (the optimal weighting
matrix when weighting_matrix is the string "optimal", else the identity under
either recognised backend), and returns the quadratic form mavgᵀ · W · mavg
where mavg is the mean of the moment matrix over the observation axis.  The
result pairs the returned scalar with the mutated instance; the outer Option
is an escaping exception (np.linalg.inv on a singular matrix), and the inner
Option ℚ is the Python return value, None when opt matches neither backend.
The unreachable-from-fit path in which an unrecognised backend under optimal
weighting would store a Python None in self.W is also modelled as a failure. -/
def GMMEstimator.gmm_objective {n L k : ℕ} (est : GMMEstimator n L k)
    (beta : Fin k → ℚ) : Option (Option ℚ × GMMEstimator n L k) :=
  let moments := est.moment_cond est.z est.y est.x beta
  let west : Option (GMMEstimator n L k) :=
    if est.weighting_matrix = "optimal" then
      (est.optimal_weighting_matrix moments).map fun w => { est with W := w }
    else
      if est.opt = "scipy" then some { est with W := 1 }
      else if est.opt = "torch" then some { est with W := 1 }
      else some est
  west.map fun est2 =>
    let mavg : Fin L → ℚ := fun l => (∑ i, moments i l) / (n : ℚ)
    if est2.opt = "scipy" then (some (mavg ⬝ᵥ est2.W *ᵥ mavg), est2)
    else if est2.opt = "torch" then (some (mavg ⬝ᵥ est2.W *ᵥ mavg), est2)
    else (none, est2)

/-- The external minimizer (scipy.optimize.minimize / torchmin.minimize) is an
opaque black box that evaluates self.gmm_objective at a sequence of candidate
parameter vectors of its own choosing; this runs the side effects of those
evaluations in order, propagating any escaping exception.  scipy and torchmin
always evaluate the objective at least once (at the random initial point). -/
def GMMEstimator.runObjectiveTrace {n L k : ℕ} (est : GMMEstimator n L k) :
    List (Fin k → ℚ) → Option (GMMEstimator n L k)
  | [] => some est
  | b :: bs =>
    match est.gmm_objective b with
    | none => none
    | some p => p.2.runObjectiveTrace bs

/-- gmm.py, GMMEstimator.jacobian_moment_cond: the analytic linear-IV Jacobian
-zᵀ·x on the scipy backend; on the torch backend the forward-mode automatic
Jacobian of moment_cond with respect to the parameter argument, evaluated at
(z, y, x, theta) and summed over the observation axis.  Both branches assign
self.jac_est and return it; with any other backend the Python method would
return a never-assigned attribute, modelled as returning the field
unchanged (unreachable from fit). -/
def GMMEstimator.jacobian_moment_cond {n L k : ℕ} (est : GMMEstimator n L k) :
    Matrix (Fin L) (Fin k) ℚ × GMMEstimator n L k :=
  if est.opt = "scipy" then
    let j := -(est.zᵀ * est.x)
    (j, { est with jac_est := j })
  else if est.opt = "torch" then
    let j := ∑ i, est.jacfwd est.z est.y est.x est.theta i
    (j, { est with jac_est := j })
  else (est.jac_est, est)

/-- gmm.py, GMMEstimator.fit: stores the data (the torch branch converts it to
float64 tensors, the identity map on exact rationals), drives the external
minimizer — modelled by its objective-evaluation trace evals and its returned
point xres — against gmm_objective, stores the returned point in self.theta,
and then attempts the covariance computation: self.Gamma from
jacobian_moment_cond, self.vθ = inv(Gammaᵀ · W · Gamma), and
self.std_errors = sqrt(n · diag(vθ)).  The bare except around that block
converts any failure (np.linalg.inv on a singular product) into
self.std_errors = None after self.Gamma was already assigned; self.vθ is only
assigned when the inversion succeeds.  With a backend other than scipy or
torch neither branch defines the minimizer result and fit raises an unhandled
NameError, modelled as none.  The verbose and fit_method arguments only
configure the opaque minimizer and are absorbed into the trace; the torch
branch statement self.W = self.W.detach().numpy() is the identity map here.
The try-block after the minimizer returns (the "Standard error calculation" of
the source) is factored into covariance_block below. -/
def GMMEstimator.covariance_block {n L k : ℕ} (est : GMMEstimator n L k) :
    GMMEstimator n L k :=
  let jr := est.jacobian_moment_cond
  let est4 := { jr.2 with Gamma := jr.1 }
  let gwg : Matrix (Fin k) (Fin k) ℚ := (jr.1ᵀ * est4.W : Matrix (Fin k) (Fin L) ℚ) * jr.1
  match np_linalg_inv gwg with
  | none => { est4 with std_errors := none }
  | some v =>
    { est4 with
      vθ := v
      std_errors := some fun i => np_sqrt ((n : ℚ) * v i i) }

/-- gmm.py, GMMEstimator.fit, continued: data staging, the minimizer drive,
self.theta = result.x, then the covariance block. -/
def GMMEstimator.fit {n L k : ℕ} (est : GMMEstimator n L k)
    (z : Matrix (Fin n) (Fin L) ℚ) (y : Fin n → ℚ) (x : Matrix (Fin n) (Fin k) ℚ)
    (evals : List (Fin k → ℚ)) (xres : Fin k → ℚ) :
    Option (GMMEstimator n L k) :=
  if est.opt = "scipy" ∨ est.opt = "torch" then
    (GMMEstimator.runObjectiveTrace { est with z := z, y := y, x := x } evals).map
      fun est2 => ({ est2 with theta := xres }).covariance_block
  else none

/-- gmm.py, iv_moment_pytorch: the linear instrumental-variables moment
condition z * (y - x @ beta).unsqueeze(-1), elementwise per observation. -/
def iv_moment_pytorch {n L k : ℕ} (z : Matrix (Fin n) (Fin L) ℚ) (y : Fin n → ℚ)
    (x : Matrix (Fin n) (Fin k) ℚ) (beta : Fin k → ℚ) : Matrix (Fin n) (Fin L) ℚ :=
  Matrix.of fun i l => z i l * (y i - (x *ᵥ beta) i)

/-- gmm.py, iv_moment_numpy: the linear instrumental-variables moment
condition z * (y - x @ beta)[:, np.newaxis], elementwise per observation. -/
def iv_moment_numpy {n L k : ℕ} (z : Matrix (Fin n) (Fin L) ℚ) (y : Fin n → ℚ)
    (x : Matrix (Fin n) (Fin k) ℚ) (beta : Fin k → ℚ) : Matrix (Fin n) (Fin L) ℚ :=
  Matrix.of fun i l => z i l * (y i - (x *ᵥ beta) i)

/-- The Jacobian matrix that fit computes at the converged point xres on the
staged data (z, y, x): the two branches of jacobian_moment_cond, namely the
analytic linear-IV form -zᵀ·x on the scipy backend, and the observation sum
of the forward-mode automatic Jacobian of the moment condition with respect
to the parameter argument, evaluated at (z, y, x, xres), on the torch
backend. -/
def fitJacobian {n L k : ℕ} (est : GMMEstimator n L k)
    (z : Matrix (Fin n) (Fin L) ℚ) (y : Fin n → ℚ) (x : Matrix (Fin n) (Fin k) ℚ)
    (xres : Fin k → ℚ) : Matrix (Fin L) (Fin k) ℚ :=
  if est.opt = "scipy" then -(zᵀ * x) else ∑ i, est.jacfwd z y x xres i

/-- Positive semidefiniteness of a rational matrix: symmetric with a
non-negative quadratic form. -/
def IsPSD {m : ℕ} (A : Matrix (Fin m) (Fin m) ℚ) : Prop :=
  Aᵀ = A ∧ ∀ v : Fin m → ℚ, 0 ≤ v ⬝ᵥ A *ᵥ v

/-- Shorthand for overwriting every fit-mutable attribute of an instance,
used to quantify over arbitrary prior fit state. -/
def GMMEstimator.withFitState {n L k : ℕ} (est : GMMEstimator n L k)
    (W0 : Matrix (Fin L) (Fin L) ℚ) (th : Fin k → ℚ) (G0 J0 : Matrix (Fin L) (Fin k) ℚ)
    (V0 : Matrix (Fin k) (Fin k) ℚ) (se : Option (Fin k → NpSqrtVal)) : GMMEstimator n L k :=
  { est with W := W0, theta := th, Gamma := G0, jac_est := J0, vθ := V0, std_errors := se }

/-- The externally observable fit result named by the specification: the point
estimate, the weighting matrix, the Jacobian and the standard errors. -/
def fitView {n L k : ℕ} (r : GMMEstimator n L k) :
    (Fin k → ℚ) × Matrix (Fin L) (Fin L) ℚ × Matrix (Fin L) (Fin k) ℚ ×
      Option (Fin k → NpSqrtVal) :=
  (r.theta, r.W, r.Gamma, r.std_errors)

/-- A concrete one-observation, one-instrument, one-regressor estimator
instance used by the witnesses: linear IV moment condition, optimal
weighting, scipy backend, data z = [[1]], y = [1], x = [[1]], and arbitrary
initial values of the mutable attributes. -/
def Ebase : GMMEstimator 1 1 1 :=
  { moment_cond := iv_moment_numpy
    jacfwd := fun z _ x _ i => Matrix.of fun l j => -(z i l * x i j)
    weighting_matrix := "optimal"
    opt := "scipy"
    z := !![1]
    y := ![1]
    x := !![1]
    W := 0
    theta := ![0]
    Gamma := 0
    jac_est := 0
    vθ := 0
    std_errors := none }

/-- Exact per-observation Jacobian of the linear IV moment condition with
respect to beta.  The external forward-mode automatic-differentiation
facility, applied to the IV moment condition, returns exactly this matrix for
observation i, because the moment condition is affine in beta with this
linear part (the first conjunct of C5 below proves it is the derivative, with
zero remainder). -/
def iv_moment_jacobian {n L k : ℕ} (z : Matrix (Fin n) (Fin L) ℚ)
    (x : Matrix (Fin n) (Fin k) ℚ) (i : Fin n) : Matrix (Fin L) (Fin k) ℚ :=
  Matrix.of fun l j => -(z i l * x i j)

/-- The concrete instance of the two-fit experiment: identity weighting,
scipy backend, initial vθ = 0. -/
def E7 : GMMEstimator 1 1 1 := { Ebase with weighting_matrix := "identity" }

/-- State of E7 after the first fit stages data z = x = [[1]], y = [1], runs
one identity-weighted objective evaluation and stores theta = [1]. -/
def A7 : GMMEstimator 1 1 1 :=
  { E7 with z := !![1], y := ![1], x := !![1], W := 1, theta := ![1] }

/-- Result of the first fit: Γ = [[-1]], vθ = [[1]], standard errors present. -/
def R7 : GMMEstimator 1 1 1 :=
  { A7 with
    Gamma := !![-1]
    jac_est := !![-1]
    vθ := !![1]
    std_errors := some fun i => np_sqrt (((1 : ℕ) : ℚ) * !![(1 : ℚ)] i i) }

/-- State of R7 after the second fit stages data z = [[1]], x = [[0]], y = [1],
runs one identity-weighted objective evaluation and stores theta = [2]. -/
def B7 : GMMEstimator 1 1 1 :=
  { R7 with z := !![1], y := ![1], x := !![0], W := 1, theta := ![2] }

/-- Result of the second fit: Γ = [[0]], the inversion of Γᵀ·W·Γ = [[0]]
fails, std_errors degrades to None — and vθ keeps the first fit value [[1]]. -/
def R7b : GMMEstimator 1 1 1 :=
  { B7 with
    Gamma := !![0]
    jac_est := !![0]
    std_errors := none }

/-
Theorems.
-/

/-- Characterization of the modelled np.linalg.inv: it succeeds exactly on a
nonzero determinant, and then returns the Mathlib nonsingular inverse. -/
theorem np_linalg_inv_eq_some {m : ℕ} {A B : Matrix (Fin m) (Fin m) ℚ} :
    np_linalg_inv A = some B ↔ A.det ≠ 0 ∧ B = A⁻¹ := by
  constructor
  · intro h
    unfold np_linalg_inv at h
    by_cases hd : A.det = 0
    · rw [if_pos hd] at h
      exact absurd h (by simp)
    · rw [if_neg hd] at h
      refine ⟨hd, ?_⟩
      rw [← Option.some.inj h, Matrix.inv_def, Ring.inverse_eq_inv]
  · rintro ⟨hd, rfl⟩
    unfold np_linalg_inv
    rw [if_neg hd, Matrix.inv_def, Ring.inverse_eq_inv]

theorem dot_self_nonneg {m : ℕ} (v : Fin m → ℚ) : 0 ≤ v ⬝ᵥ v := by
  rw [Matrix.dotProduct]
  exact Finset.sum_nonneg fun i _ => mul_self_nonneg (v i)

theorem isPSD_one {m : ℕ} : IsPSD (1 : Matrix (Fin m) (Fin m) ℚ) := by
  refine ⟨Matrix.transpose_one, fun v => ?_⟩
  rw [Matrix.one_mulVec]
  exact dot_self_nonneg v

theorem isPSD_transpose_mul_self {n L : ℕ} (M : Matrix (Fin n) (Fin L) ℚ) :
    IsPSD (Mᵀ * M) := by
  refine ⟨by rw [Matrix.transpose_mul, Matrix.transpose_transpose], fun v => ?_⟩
  rw [← Matrix.mulVec_mulVec, Matrix.dotProduct_mulVec, Matrix.vecMul_transpose]
  exact dot_self_nonneg _

theorem IsPSD.smul {m : ℕ} {A : Matrix (Fin m) (Fin m) ℚ} (h : IsPSD A) {c : ℚ}
    (hc : 0 ≤ c) : IsPSD (c • A) := by
  refine ⟨by rw [Matrix.transpose_smul, h.1], fun v => ?_⟩
  rw [Matrix.smul_mulVec_assoc, Matrix.dotProduct_smul, smul_eq_mul]
  exact mul_nonneg hc (h.2 v)

theorem IsPSD.sandwich {L k : ℕ} {Wm : Matrix (Fin L) (Fin L) ℚ} (h : IsPSD Wm)
    (G : Matrix (Fin L) (Fin k) ℚ) :
    IsPSD ((Gᵀ * Wm : Matrix (Fin k) (Fin L) ℚ) * G) := by
  constructor
  · rw [Matrix.transpose_mul, Matrix.transpose_mul, Matrix.transpose_transpose, h.1,
      Matrix.mul_assoc]
  · intro v
    rw [← Matrix.mulVec_mulVec, ← Matrix.mulVec_mulVec, Matrix.dotProduct_mulVec,
      Matrix.vecMul_transpose]
    exact h.2 (G *ᵥ v)

theorem IsPSD.np_inv {m : ℕ} {A B : Matrix (Fin m) (Fin m) ℚ} (h : IsPSD A)
    (hB : np_linalg_inv A = some B) : IsPSD B := by
  obtain ⟨hd, rfl⟩ := np_linalg_inv_eq_some.mp hB
  have hu : IsUnit A.det := isUnit_iff_ne_zero.mpr hd
  constructor
  · rw [Matrix.transpose_nonsing_inv, h.1]
  · intro v
    have hv : A *ᵥ (A⁻¹ *ᵥ v) = v := by
      rw [Matrix.mulVec_mulVec, Matrix.mul_nonsing_inv A hu, Matrix.one_mulVec]
    calc (0 : ℚ) ≤ (A⁻¹ *ᵥ v) ⬝ᵥ A *ᵥ (A⁻¹ *ᵥ v) := h.2 _
    _ = (A *ᵥ (A⁻¹ *ᵥ v)) ⬝ᵥ (A⁻¹ *ᵥ v) := Matrix.dotProduct_comm _ _
    _ = v ⬝ᵥ A⁻¹ *ᵥ v := by rw [hv]

theorem IsPSD.diag_nonneg {m : ℕ} {A : Matrix (Fin m) (Fin m) ℚ} (h : IsPSD A)
    (i : Fin m) : 0 ≤ A i i := by
  have hq := h.2 (Pi.single i 1)
  rwa [Matrix.mulVec_single, Matrix.single_dotProduct, one_mul, mul_one] at hq

/-- Under a recognised backend, one objective evaluation is: compute the new
weighting matrix from the moments at this beta alone (optimal mode: the
fallible inverse of the empirical second-moment matrix; any other
configuration string: the identity), store it, and return the quadratic form
of the mean moment vector in it. -/
theorem gmm_objective_char {n L k : ℕ} (est : GMMEstimator n L k) (beta : Fin k → ℚ)
    (hopt : est.opt = "scipy" ∨ est.opt = "torch") :
    est.gmm_objective beta =
      (if est.weighting_matrix = "optimal"
        then np_linalg_inv ((1 / (n : ℚ)) •
          ((est.moment_cond est.z est.y est.x beta)ᵀ * est.moment_cond est.z est.y est.x beta))
        else some 1).map
        fun w =>
          (some ((fun l => (∑ i, est.moment_cond est.z est.y est.x beta i l) / (n : ℚ)) ⬝ᵥ
              w *ᵥ fun l => (∑ i, est.moment_cond est.z est.y est.x beta i l) / (n : ℚ)),
            { est with W := w }) := by
  unfold GMMEstimator.gmm_objective GMMEstimator.optimal_weighting_matrix
  rcases hopt with h | h <;>
    by_cases hw : est.weighting_matrix = "optimal" <;>
      simp [h, hw, Option.map_map, Function.comp] <;>
      (refine congrArg (fun f => Option.map f _) ?_; funext w; simp [h])

/-- An objective evaluation mutates only the weighting matrix field. -/
theorem gmm_objective_some_state {n L k : ℕ} {est : GMMEstimator n L k}
    {beta : Fin k → ℚ} {p : Option ℚ × GMMEstimator n L k}
    (hopt : est.opt = "scipy" ∨ est.opt = "torch")
    (h : est.gmm_objective beta = some p) : p.2 = { est with W := p.2.W } := by
  rw [gmm_objective_char est beta hopt] at h
  rcases Option.map_eq_some'.mp h with ⟨w, _, hfp⟩
  rw [← hfp]

/-- The weighting matrix stored by an objective evaluation is positive
semidefinite: the identity in non-optimal mode, and in optimal mode the
inverse of the positive-semidefinite empirical second-moment matrix. -/
theorem gmm_objective_W_psd {n L k : ℕ} {est : GMMEstimator n L k}
    {beta : Fin k → ℚ} {p : Option ℚ × GMMEstimator n L k}
    (hopt : est.opt = "scipy" ∨ est.opt = "torch")
    (h : est.gmm_objective beta = some p) : IsPSD p.2.W := by
  rw [gmm_objective_char est beta hopt] at h
  rcases Option.map_eq_some'.mp h with ⟨w, hw, hfp⟩
  have hpw : p.2.W = w := by rw [← hfp]
  rw [hpw]
  by_cases hwm : est.weighting_matrix = "optimal"
  · rw [if_pos hwm] at hw
    exact ((isPSD_transpose_mul_self _).smul
      (one_div_nonneg.mpr (Nat.cast_nonneg n))).np_inv hw
  · rw [if_neg hwm] at hw
    rw [← Option.some.inj hw]
    exact isPSD_one

/-- After a successful trace the stored weighting matrix is positive
semidefinite, provided it started so or at least one evaluation ran. -/
theorem trace_W_psd {n L k : ℕ} {est t : GMMEstimator n L k}
    {evals : List (Fin k → ℚ)}
    (hopt : est.opt = "scipy" ∨ est.opt = "torch")
    (h : est.runObjectiveTrace evals = some t)
    (hinit : IsPSD est.W ∨ evals ≠ []) : IsPSD t.W := by
  induction evals generalizing est with
  | nil =>
    unfold GMMEstimator.runObjectiveTrace at h
    rw [← Option.some.inj h]
    exact hinit.resolve_right fun hne => hne rfl
  | cons b bs ih =>
    unfold GMMEstimator.runObjectiveTrace at h
    cases hob : est.gmm_objective b with
    | none => rw [hob] at h; exact absurd h (by simp)
    | some p =>
      rw [hob] at h
      have hstate := gmm_objective_some_state hopt hob
      have hopt2 : p.2.opt = "scipy" ∨ p.2.opt = "torch" := by rw [hstate]; exact hopt
      exact ih hopt2 h (Or.inl (gmm_objective_W_psd hopt hob))

/-- jacobian_moment_cond leaves the stored weighting matrix unchanged. -/
theorem jacobian_moment_cond_W {n L k : ℕ} (est : GMMEstimator n L k) :
    (est.jacobian_moment_cond).2.W = est.W := by
  unfold GMMEstimator.jacobian_moment_cond
  by_cases h1 : est.opt = "scipy" <;> by_cases h2 : est.opt = "torch" <;> simp [h1, h2]

/-- Definitional unfolding of the covariance block, with the let-bound
intermediates reduced away. -/
theorem covariance_block_eq {n L k : ℕ} (est : GMMEstimator n L k) :
    est.covariance_block =
      (match np_linalg_inv ((est.jacobian_moment_cond.1ᵀ * est.jacobian_moment_cond.2.W :
          Matrix (Fin k) (Fin L) ℚ) * est.jacobian_moment_cond.1) with
      | none =>
        { est.jacobian_moment_cond.2 with
          Gamma := est.jacobian_moment_cond.1
          std_errors := none }
      | some v =>
        { est.jacobian_moment_cond.2 with
          Gamma := est.jacobian_moment_cond.1
          vθ := v
          std_errors := some fun i => np_sqrt ((n : ℚ) * v i i) }) := rfl

/-- When the covariance block produces standard errors at all, each entry is
the square root of a non-negative radicand, provided the stored weighting
matrix is positive semidefinite. -/
theorem covariance_block_std {n L k : ℕ} (est : GMMEstimator n L k)
    (hW : IsPSD est.W) {s : Fin k → NpSqrtVal}
    (hs : est.covariance_block.std_errors = some s) (i : Fin k) :
    (s i).isNonnegReal := by
  rw [covariance_block_eq est, jacobian_moment_cond_W est] at hs
  cases hnp : np_linalg_inv ((est.jacobian_moment_cond.1ᵀ * est.W :
      Matrix (Fin k) (Fin L) ℚ) * est.jacobian_moment_cond.1) with
  | none => rw [hnp] at hs; simp at hs
  | some v =>
    rw [hnp] at hs
    simp only at hs
    have hs2 : s = fun i => np_sqrt ((n : ℚ) * v i i) := (Option.some.inj hs).symm
    have hv : IsPSD v := (hW.sandwich est.jacobian_moment_cond.1).np_inv hnp
    have hrad : 0 ≤ (n : ℚ) * v i i := mul_nonneg (Nat.cast_nonneg n) (hv.diag_nonneg i)
    rw [hs2]
    show (np_sqrt ((n : ℚ) * v i i)).isNonnegReal
    unfold np_sqrt
    rw [if_neg (not_lt.mpr hrad)]
    exact hrad

/-- Whether a trace succeeds, and the weighting matrix it leaves behind, do
not depend on the prior values of the fit-mutable fields, as soon as at least
one evaluation runs (or the prior weighting matrices already agree). -/
theorem trace_W_congr {n L k : ℕ} (evals : List (Fin k → ℚ)) :
    ∀ (est : GMMEstimator n L k) (W0 : Matrix (Fin L) (Fin L) ℚ) (th : Fin k → ℚ)
      (G0 J0 : Matrix (Fin L) (Fin k) ℚ) (V0 : Matrix (Fin k) (Fin k) ℚ)
      (se : Option (Fin k → NpSqrtVal)),
      est.opt = "scipy" ∨ est.opt = "torch" → (evals ≠ [] ∨ W0 = est.W) →
      ((est.withFitState W0 th G0 J0 V0 se).runObjectiveTrace evals).map (fun t => t.W) =
        (est.runObjectiveTrace evals).map (fun t => t.W) := by
  induction evals with
  | nil =>
    intro est W0 th G0 J0 V0 se hopt hne
    have hW : W0 = est.W := hne.resolve_left fun h => h rfl
    unfold GMMEstimator.runObjectiveTrace
    simp [GMMEstimator.withFitState, hW]
  | cons b bs ih =>
    intro est W0 th G0 J0 V0 se hopt hne
    have hopt2 : (est.withFitState W0 th G0 J0 V0 se).opt = "scipy" ∨
        (est.withFitState W0 th G0 J0 V0 se).opt = "torch" := hopt
    unfold GMMEstimator.runObjectiveTrace
    rw [gmm_objective_char _ b hopt2, gmm_objective_char _ b hopt]
    simp only [GMMEstimator.withFitState]
    cases hnp : (if est.weighting_matrix = "optimal"
        then np_linalg_inv ((1 / (n : ℚ)) •
          ((est.moment_cond est.z est.y est.x b)ᵀ * est.moment_cond est.z est.y est.x b))
        else some 1) with
    | none => simp
    | some w =>
      simp only [Option.map_some']
      exact ih { est with W := w } w th G0 J0 V0 se hopt (Or.inr rfl)

/-- A successful trace only rewrites the weighting matrix field. -/
theorem trace_some_state {n L k : ℕ} {evals : List (Fin k → ℚ)} :
    ∀ {est t : GMMEstimator n L k}, est.opt = "scipy" ∨ est.opt = "torch" →
      est.runObjectiveTrace evals = some t → t = { est with W := t.W } := by
  induction evals with
  | nil =>
    intro est t _ h
    unfold GMMEstimator.runObjectiveTrace at h
    rw [← Option.some.inj h]
  | cons b bs ih =>
    intro est t hopt h
    unfold GMMEstimator.runObjectiveTrace at h
    cases hob : est.gmm_objective b with
    | none => rw [hob] at h; exact absurd h (by simp)
    | some p =>
      rw [hob] at h
      have hstate := gmm_objective_some_state hopt hob
      have hopt2 : p.2.opt = "scipy" ∨ p.2.opt = "torch" := by rw [hstate]; exact hopt
      have ht := ih hopt2 h
      rw [ht, hstate]

/-- Under a recognised backend, jacobian_moment_cond only rewrites the
jac_est field. -/
theorem jacobian_moment_cond_state {n L k : ℕ} (est : GMMEstimator n L k)
    (hopt : est.opt = "scipy" ∨ est.opt = "torch") :
    est.jacobian_moment_cond.2 = { est with jac_est := est.jacobian_moment_cond.1 } := by
  unfold GMMEstimator.jacobian_moment_cond
  rcases hopt with h | h <;> by_cases h2 : est.opt = "torch" <;> simp [h, h2]

/-- The Jacobian returned by jacobian_moment_cond does not depend on the prior
values of the Gamma, jac_est, vθ and std_errors fields. -/
theorem jacobian_moment_cond_fst_congr {n L k : ℕ} (a : GMMEstimator n L k)
    (hopt : a.opt = "scipy" ∨ a.opt = "torch")
    (G0 J0 : Matrix (Fin L) (Fin k) ℚ) (V0 : Matrix (Fin k) (Fin k) ℚ)
    (se : Option (Fin k → NpSqrtVal)) :
    (a.withFitState a.W a.theta G0 J0 V0 se).jacobian_moment_cond.1 =
      a.jacobian_moment_cond.1 := by
  unfold GMMEstimator.jacobian_moment_cond
  rcases hopt with h | h <;> by_cases h2 : a.opt = "torch" <;>
    simp [GMMEstimator.withFitState, h, h2]

/-- The observable covariance-block output is unchanged when the prior values
of the Gamma, jac_est, vθ and std_errors fields are overwritten. -/
theorem covariance_block_view {n L k : ℕ} (a : GMMEstimator n L k)
    (hopt : a.opt = "scipy" ∨ a.opt = "torch")
    (G0 J0 : Matrix (Fin L) (Fin k) ℚ) (V0 : Matrix (Fin k) (Fin k) ℚ)
    (se : Option (Fin k → NpSqrtVal)) :
    fitView ((a.withFitState a.W a.theta G0 J0 V0 se).covariance_block) =
      fitView a.covariance_block := by
  have hoptb : (a.withFitState a.W a.theta G0 J0 V0 se).opt = "scipy" ∨
      (a.withFitState a.W a.theta G0 J0 V0 se).opt = "torch" := hopt
  have hj := jacobian_moment_cond_fst_congr a hopt G0 J0 V0 se
  rw [covariance_block_eq, covariance_block_eq, jacobian_moment_cond_W,
    jacobian_moment_cond_W, jacobian_moment_cond_state _ hoptb,
    jacobian_moment_cond_state _ hopt, hj]
  have haW : (a.withFitState a.W a.theta G0 J0 V0 se).W = a.W := rfl
  rw [haW]
  cases hnp : np_linalg_inv ((a.jacobian_moment_cond.1ᵀ * a.W :
      Matrix (Fin k) (Fin L) ℚ) * a.jacobian_moment_cond.1) with
  | none => simp [fitView, GMMEstimator.withFitState]
  | some v => simp [fitView, GMMEstimator.withFitState]

/-- C1: in optimal-weighting mode every objective evaluation stores
W = inv((1/n) · MᵀM) with M the moment matrix at this very beta (failing
exactly when that matrix is singular), and the evaluation does not depend on
the previously stored weighting matrix — W is recomputed each call, not fixed
from a first stage. -/
theorem claim_C1 {n L k : ℕ} (est : GMMEstimator n L k) (beta : Fin k → ℚ)
    (hw : est.weighting_matrix = "optimal")
    (hopt : est.opt = "scipy" ∨ est.opt = "torch") :
    est.gmm_objective beta =
      (np_linalg_inv ((1 / (n : ℚ)) •
        ((est.moment_cond est.z est.y est.x beta)ᵀ *
          est.moment_cond est.z est.y est.x beta))).map
        (fun w =>
          (some ((fun l => (∑ i, est.moment_cond est.z est.y est.x beta i l) / (n : ℚ)) ⬝ᵥ
            w *ᵥ fun l => (∑ i, est.moment_cond est.z est.y est.x beta i l) / (n : ℚ)),
            { est with W := w })) ∧
    ∀ W0 : Matrix (Fin L) (Fin L) ℚ,
      ({ est with W := W0 } : GMMEstimator n L k).gmm_objective beta =
        est.gmm_objective beta := by
  constructor
  · rw [gmm_objective_char est beta hopt, if_pos hw]
  · intro W0
    have hopt2 : ({ est with W := W0 } : GMMEstimator n L k).opt = "scipy" ∨
        ({ est with W := W0 } : GMMEstimator n L k).opt = "torch" := hopt
    rw [gmm_objective_char _ beta hopt2, gmm_objective_char est beta hopt]

/-- Witness for C1 at the concrete instance Ebase, with the recomputation
conjunct instantiated at the prior weighting matrix [[5]]. -/
theorem claim_C1_witness :
    (Ebase.gmm_objective ![0] =
      (np_linalg_inv ((1 / ((1 : ℕ) : ℚ)) •
        ((Ebase.moment_cond Ebase.z Ebase.y Ebase.x ![0])ᵀ *
          Ebase.moment_cond Ebase.z Ebase.y Ebase.x ![0]))).map
        (fun w =>
          (some ((fun l => (∑ i, Ebase.moment_cond Ebase.z Ebase.y Ebase.x ![0] i l) / ((1 : ℕ) : ℚ)) ⬝ᵥ
            w *ᵥ fun l => (∑ i, Ebase.moment_cond Ebase.z Ebase.y Ebase.x ![0] i l) / ((1 : ℕ) : ℚ)),
            { Ebase with W := w }))) ∧
    ({ Ebase with W := !![5] } : GMMEstimator 1 1 1).gmm_objective ![0] =
      Ebase.gmm_objective ![0] :=
  ⟨(claim_C1 Ebase ![0] rfl (Or.inl rfl)).1,
    (claim_C1 Ebase ![0] rfl (Or.inl rfl)).2 !![5]⟩

/-- C2: on either recognised backend, the scalar the objective returns is
exactly mavgᵀ · W · mavg, where mavg is the observation-axis mean of the
moment matrix at this beta and W is the weighting matrix this same evaluation
stored on the instance. -/
theorem claim_C2 {n L k : ℕ} (est : GMMEstimator n L k) (beta : Fin k → ℚ)
    (hopt : est.opt = "scipy" ∨ est.opt = "torch") :
    (est.gmm_objective beta).map (fun p => p.1) =
      (est.gmm_objective beta).map (fun p =>
        some ((fun l => (∑ i, est.moment_cond est.z est.y est.x beta i l) / (n : ℚ)) ⬝ᵥ
          p.2.W *ᵥ fun l => (∑ i, est.moment_cond est.z est.y est.x beta i l) / (n : ℚ))) := by
  rw [gmm_objective_char est beta hopt]
  simp only [Option.map_map]
  rfl

/-- Witness for C2 at the concrete instance Ebase. -/
theorem claim_C2_witness :
    (Ebase.gmm_objective ![0]).map (fun p => p.1) =
      (Ebase.gmm_objective ![0]).map (fun p =>
        some ((fun l => (∑ i, Ebase.moment_cond Ebase.z Ebase.y Ebase.x ![0] i l) / ((1 : ℕ) : ℚ)) ⬝ᵥ
          p.2.W *ᵥ fun l => (∑ i, Ebase.moment_cond Ebase.z Ebase.y Ebase.x ![0] i l) / ((1 : ℕ) : ℚ))) :=
  claim_C2 Ebase ![0] (Or.inl rfl)

/-- C3: with any weighting_matrix configuration string other than "optimal",
an objective evaluation on either recognised backend always succeeds, stores
exactly the identity weighting matrix, and returns the identity-weighted
quadratic form — no validation or rejection of the string happens. -/
theorem claim_C3 {n L k : ℕ} (est : GMMEstimator n L k) (beta : Fin k → ℚ)
    (hw : est.weighting_matrix ≠ "optimal")
    (hopt : est.opt = "scipy" ∨ est.opt = "torch") :
    est.gmm_objective beta =
      some (some ((fun l => (∑ i, est.moment_cond est.z est.y est.x beta i l) / (n : ℚ)) ⬝ᵥ
        (1 : Matrix (Fin L) (Fin L) ℚ) *ᵥ
          fun l => (∑ i, est.moment_cond est.z est.y est.x beta i l) / (n : ℚ)),
        { est with W := 1 }) := by
  rw [gmm_objective_char est beta hopt, if_neg hw]
  rfl

/-- Witness for C3 at a concrete instance whose configuration string is the
unvalidated value "id-like". -/
theorem claim_C3_witness :
    ({ Ebase with weighting_matrix := "id-like" } : GMMEstimator 1 1 1).gmm_objective ![0] =
      some (some ((fun l => (∑ i,
          ({ Ebase with weighting_matrix := "id-like" } : GMMEstimator 1 1 1).moment_cond
            ({ Ebase with weighting_matrix := "id-like" } : GMMEstimator 1 1 1).z
            ({ Ebase with weighting_matrix := "id-like" } : GMMEstimator 1 1 1).y
            ({ Ebase with weighting_matrix := "id-like" } : GMMEstimator 1 1 1).x ![0] i l) /
              ((1 : ℕ) : ℚ)) ⬝ᵥ
        (1 : Matrix (Fin 1) (Fin 1) ℚ) *ᵥ
          fun l => (∑ i,
            ({ Ebase with weighting_matrix := "id-like" } : GMMEstimator 1 1 1).moment_cond
              ({ Ebase with weighting_matrix := "id-like" } : GMMEstimator 1 1 1).z
              ({ Ebase with weighting_matrix := "id-like" } : GMMEstimator 1 1 1).y
              ({ Ebase with weighting_matrix := "id-like" } : GMMEstimator 1 1 1).x ![0] i l) /
                ((1 : ℕ) : ℚ)),
        { ({ Ebase with weighting_matrix := "id-like" } : GMMEstimator 1 1 1) with W := 1 }) :=
  claim_C3 { Ebase with weighting_matrix := "id-like" } ![0] (by decide) (Or.inl rfl)

/-- C9: with a backend string other than "scipy" and "torch", fit defines no
minimizer result and aborts with an unhandled error before producing any
result — no fallback and no configuration error report. -/
theorem claim_C9 {n L k : ℕ} (est : GMMEstimator n L k)
    (z : Matrix (Fin n) (Fin L) ℚ) (y : Fin n → ℚ) (x : Matrix (Fin n) (Fin k) ℚ)
    (evals : List (Fin k → ℚ)) (xres : Fin k → ℚ)
    (h1 : est.opt ≠ "scipy") (h2 : est.opt ≠ "torch") :
    est.fit z y x evals xres = none := by
  unfold GMMEstimator.fit
  rw [if_neg]
  rintro (h | h)
  · exact h1 h
  · exact h2 h

/-- Witness for C9: a backend string "numpy" aborts fit. -/
theorem claim_C9_witness :
    ({ Ebase with opt := "numpy" } : GMMEstimator 1 1 1).fit !![1] ![1] !![1] [![0]] ![1] = none :=
  claim_C9 { Ebase with opt := "numpy" } !![1] ![1] !![1] [![0]] ![1] (by decide) (by decide)

/-- C10: with a non-"optimal" weighting configuration on the scipy backend,
the objective value at any beta is the squared Euclidean norm mavgᵀ · mavg of
the mean moment vector, and that value is non-negative. -/
theorem claim_C10 {n L k : ℕ} (est : GMMEstimator n L k) (beta : Fin k → ℚ)
    (hw : est.weighting_matrix ≠ "optimal") (hs : est.opt = "scipy") :
    est.gmm_objective beta =
      some (some ((fun l => (∑ i, est.moment_cond est.z est.y est.x beta i l) / (n : ℚ)) ⬝ᵥ
        fun l => (∑ i, est.moment_cond est.z est.y est.x beta i l) / (n : ℚ)),
        { est with W := 1 }) ∧
    0 ≤ (fun l => (∑ i, est.moment_cond est.z est.y est.x beta i l) / (n : ℚ)) ⬝ᵥ
      fun l => (∑ i, est.moment_cond est.z est.y est.x beta i l) / (n : ℚ) := by
  constructor
  · rw [gmm_objective_char est beta (Or.inl hs), if_neg hw]
    simp only [Option.map_some', Matrix.one_mulVec]
  · exact dot_self_nonneg _

/-- Witness for C10 at a concrete identity-weighted scipy instance. -/
theorem claim_C10_witness :
    (({ Ebase with weighting_matrix := "identity" } : GMMEstimator 1 1 1).gmm_objective ![0] =
      some (some ((fun l => (∑ i,
          ({ Ebase with weighting_matrix := "identity" } : GMMEstimator 1 1 1).moment_cond
            ({ Ebase with weighting_matrix := "identity" } : GMMEstimator 1 1 1).z
            ({ Ebase with weighting_matrix := "identity" } : GMMEstimator 1 1 1).y
            ({ Ebase with weighting_matrix := "identity" } : GMMEstimator 1 1 1).x ![0] i l) /
              ((1 : ℕ) : ℚ)) ⬝ᵥ
        fun l => (∑ i,
          ({ Ebase with weighting_matrix := "identity" } : GMMEstimator 1 1 1).moment_cond
            ({ Ebase with weighting_matrix := "identity" } : GMMEstimator 1 1 1).z
            ({ Ebase with weighting_matrix := "identity" } : GMMEstimator 1 1 1).y
            ({ Ebase with weighting_matrix := "identity" } : GMMEstimator 1 1 1).x ![0] i l) /
              ((1 : ℕ) : ℚ)),
        { ({ Ebase with weighting_matrix := "identity" } : GMMEstimator 1 1 1) with W := 1 })) ∧
    0 ≤ (fun l => (∑ i,
          ({ Ebase with weighting_matrix := "identity" } : GMMEstimator 1 1 1).moment_cond
            ({ Ebase with weighting_matrix := "identity" } : GMMEstimator 1 1 1).z
            ({ Ebase with weighting_matrix := "identity" } : GMMEstimator 1 1 1).y
            ({ Ebase with weighting_matrix := "identity" } : GMMEstimator 1 1 1).x ![0] i l) /
              ((1 : ℕ) : ℚ)) ⬝ᵥ
      fun l => (∑ i,
          ({ Ebase with weighting_matrix := "identity" } : GMMEstimator 1 1 1).moment_cond
            ({ Ebase with weighting_matrix := "identity" } : GMMEstimator 1 1 1).z
            ({ Ebase with weighting_matrix := "identity" } : GMMEstimator 1 1 1).y
            ({ Ebase with weighting_matrix := "identity" } : GMMEstimator 1 1 1).x ![0] i l) /
              ((1 : ℕ) : ℚ) :=
  claim_C10 { Ebase with weighting_matrix := "identity" } ![0] (by decide) rfl

/-- C5: for the canonical linear IV moment condition, the per-observation
moment map is affine in beta with linear part iv_moment_jacobian (an exact
first-order expansion, so that matrix is its Jacobian); the observation sum
of those Jacobians — what the automatic-differentiation branch computes — is
exactly the analytic branch -zᵀ·x; and consequently the observation-summed
moment condition is affine in beta with linear part -zᵀ·x. -/
theorem claim_C5 {n L k : ℕ} (z : Matrix (Fin n) (Fin L) ℚ) (y : Fin n → ℚ)
    (x : Matrix (Fin n) (Fin k) ℚ) :
    (∀ (beta delta : Fin k → ℚ) (i : Fin n) (l : Fin L),
      iv_moment_numpy z y x (beta + delta) i l =
        iv_moment_numpy z y x beta i l + (iv_moment_jacobian z x i *ᵥ delta) l) ∧
    (∑ i, iv_moment_jacobian z x i) = -(zᵀ * x) ∧
    ∀ (beta delta : Fin k → ℚ) (l : Fin L),
      (∑ i, iv_moment_numpy z y x (beta + delta) i l) =
        (∑ i, iv_moment_numpy z y x beta i l) +
          ((-(zᵀ * x) : Matrix (Fin L) (Fin k) ℚ) *ᵥ delta) l := by
  have hA : ∀ (beta delta : Fin k → ℚ) (i : Fin n) (l : Fin L),
      iv_moment_numpy z y x (beta + delta) i l =
        iv_moment_numpy z y x beta i l + (iv_moment_jacobian z x i *ᵥ delta) l := by
    intro beta delta i l
    simp only [iv_moment_numpy, iv_moment_jacobian, Matrix.of_apply, Matrix.mulVec_add,
      Pi.add_apply, Matrix.mulVec, Matrix.dotProduct, mul_add]
    have hsum : (∑ j, -(z i l * x i j) * delta j) = -(z i l * ∑ j, x i j * delta j) := by
      rw [Finset.mul_sum, ← Finset.sum_neg_distrib]
      exact Finset.sum_congr rfl fun j _ => by ring
    rw [hsum, Finset.sum_add_distrib]
    ring
  have hB : (∑ i, iv_moment_jacobian z x i) = -(zᵀ * x) := by
    ext l j
    simp only [Matrix.sum_apply, iv_moment_jacobian, Matrix.of_apply, Matrix.neg_apply,
      Matrix.mul_apply, Matrix.transpose_apply]
    rw [← Finset.sum_neg_distrib]
  refine ⟨hA, hB, ?_⟩
  intro beta delta l
  have hswap : (∑ i, (iv_moment_jacobian z x i *ᵥ delta) l) =
      ((∑ i, iv_moment_jacobian z x i) *ᵥ delta) l := by
    simp only [Matrix.mulVec, Matrix.dotProduct, Matrix.sum_apply, Finset.sum_mul]
    exact Finset.sum_comm
  calc (∑ i, iv_moment_numpy z y x (beta + delta) i l)
      = ∑ i, (iv_moment_numpy z y x beta i l + (iv_moment_jacobian z x i *ᵥ delta) l) :=
        Finset.sum_congr rfl fun i _ => hA beta delta i l
    _ = (∑ i, iv_moment_numpy z y x beta i l) + ∑ i, (iv_moment_jacobian z x i *ᵥ delta) l :=
        Finset.sum_add_distrib
    _ = (∑ i, iv_moment_numpy z y x beta i l) +
          ((-(zᵀ * x) : Matrix (Fin L) (Fin k) ℚ) *ᵥ delta) l := by rw [hswap, hB]

/-- The scipy branch of jacobian_moment_cond returns -zᵀ·x. -/
theorem jacobian_moment_cond_scipy {n L k : ℕ} (a : GMMEstimator n L k)
    (hs : a.opt = "scipy") : a.jacobian_moment_cond.1 = -(a.zᵀ * a.x) := by
  unfold GMMEstimator.jacobian_moment_cond
  rw [if_pos hs]

/-- The torch branch of jacobian_moment_cond returns the observation sum of
the forward-mode automatic Jacobian of the moment condition, evaluated at the
stored data and point estimate. -/
theorem jacobian_moment_cond_torch {n L k : ℕ} (a : GMMEstimator n L k)
    (ht : a.opt = "torch") :
    a.jacobian_moment_cond.1 = ∑ i, a.jacfwd a.z a.y a.x a.theta i := by
  unfold GMMEstimator.jacobian_moment_cond
  rw [if_neg (fun hc => absurd (hc.symm.trans ht) (by decide)), if_pos ht]

/-- The covariance block does not touch the point estimate. -/
theorem covariance_block_theta {n L k : ℕ} (a : GMMEstimator n L k)
    (hopt : a.opt = "scipy" ∨ a.opt = "torch") :
    a.covariance_block.theta = a.theta := by
  rw [covariance_block_eq, jacobian_moment_cond_state _ hopt]
  cases hnp : np_linalg_inv ((a.jacobian_moment_cond.1ᵀ *
      ({ a with jac_est := a.jacobian_moment_cond.1 } : GMMEstimator n L k).W :
      Matrix (Fin k) (Fin L) ℚ) * a.jacobian_moment_cond.1) <;> rfl

/-- The standard errors the covariance block stores: present exactly when the
inversion of Γᵀ·W·Γ succeeds, and then equal to sqrt(n · diag) of it. -/
theorem covariance_block_std_eq {n L k : ℕ} (a : GMMEstimator n L k) :
    a.covariance_block.std_errors =
      (np_linalg_inv ((a.jacobian_moment_cond.1ᵀ * a.W : Matrix (Fin k) (Fin L) ℚ) *
        a.jacobian_moment_cond.1)).map (fun v => fun i => np_sqrt ((n : ℚ) * v i i)) := by
  rw [covariance_block_eq, jacobian_moment_cond_W]
  cases hnp : np_linalg_inv ((a.jacobian_moment_cond.1ᵀ * a.W :
      Matrix (Fin k) (Fin L) ℚ) * a.jacobian_moment_cond.1) <;> rfl

/-- C6: on a recognised backend, fit completes exactly when the minimizer run
completes — a covariance failure is swallowed, never propagated; the
converged point is stored in theta in every case; and the standard errors are
present exactly when inverting Γᵀ·W·Γ succeeded, in which case they are
sqrt(n · diag(vθ)), and are the unavailable value None on failure. -/
theorem claim_C6 {n L k : ℕ} (est : GMMEstimator n L k)
    (z : Matrix (Fin n) (Fin L) ℚ) (y : Fin n → ℚ) (x : Matrix (Fin n) (Fin k) ℚ)
    (evals : List (Fin k → ℚ)) (xres : Fin k → ℚ)
    (hopt : est.opt = "scipy" ∨ est.opt = "torch") :
    ((est.fit z y x evals xres).isSome ↔
      (GMMEstimator.runObjectiveTrace { est with z := z, y := y, x := x } evals).isSome) ∧
    (est.fit z y x evals xres).map (fun r => r.theta) =
      (GMMEstimator.runObjectiveTrace { est with z := z, y := y, x := x } evals).map
        (fun _ => xres) ∧
    (est.fit z y x evals xres).map (fun r => r.std_errors) =
      (GMMEstimator.runObjectiveTrace { est with z := z, y := y, x := x } evals).map (fun t =>
        (np_linalg_inv ((({ t with theta := xres } : GMMEstimator n L k).jacobian_moment_cond.1ᵀ *
            t.W : Matrix (Fin k) (Fin L) ℚ) *
            ({ t with theta := xres } : GMMEstimator n L k).jacobian_moment_cond.1)).map
          (fun v => fun i => np_sqrt ((n : ℚ) * v i i))) := by
  unfold GMMEstimator.fit
  rw [if_pos hopt]
  cases ht : GMMEstimator.runObjectiveTrace { est with z := z, y := y, x := x } evals with
  | none => exact ⟨by simp, by simp, by simp⟩
  | some t =>
    have hopt1 : ({ est with z := z, y := y, x := x } : GMMEstimator n L k).opt = "scipy" ∨
        ({ est with z := z, y := y, x := x } : GMMEstimator n L k).opt = "torch" := hopt
    have htst := trace_some_state hopt1 ht
    have hopta : ({ t with theta := xres } : GMMEstimator n L k).opt = "scipy" ∨
        ({ t with theta := xres } : GMMEstimator n L k).opt = "torch" := by
      rw [htst]; exact hopt
    refine ⟨by simp, ?_, ?_⟩
    · simp only [Option.map_some']
      rw [covariance_block_theta _ hopta]
    · simp only [Option.map_some']
      rw [covariance_block_std_eq]

/-- C4: on either recognised backend, fit after a completed minimizer run
stores the Jacobian of the moment condition — the analytic Γ = -zᵀ·x on
scipy, the observation-summed forward-mode automatic Jacobian at the
converged point on torch (fitJacobian) — inverts Γᵀ·W·Γ with W exactly the
weighting matrix the trace of objective evaluations left on the instance
(the last one the minimizer performed), stores the inverse in vθ on success
together with standard errors sqrt(n · diag(vθ)), and stores
std_errors = None when that inversion fails. -/
theorem claim_C4 {n L k : ℕ} (est : GMMEstimator n L k)
    (z : Matrix (Fin n) (Fin L) ℚ) (y : Fin n → ℚ) (x : Matrix (Fin n) (Fin k) ℚ)
    (evals : List (Fin k → ℚ)) (xres : Fin k → ℚ)
    (hopt : est.opt = "scipy" ∨ est.opt = "torch") :
    est.fit z y x evals xres =
      (GMMEstimator.runObjectiveTrace { est with z := z, y := y, x := x } evals).map (fun t =>
        (np_linalg_inv (((fitJacobian est z y x xres)ᵀ * t.W :
            Matrix (Fin k) (Fin L) ℚ) * fitJacobian est z y x xres)).elim
          { t with
            theta := xres
            Gamma := fitJacobian est z y x xres
            jac_est := fitJacobian est z y x xres
            std_errors := none }
          (fun v =>
            { t with
              theta := xres
              Gamma := fitJacobian est z y x xres
              jac_est := fitJacobian est z y x xres
              vθ := v
              std_errors := some fun i => np_sqrt ((n : ℚ) * v i i) })) := by
  unfold GMMEstimator.fit
  rw [if_pos hopt]
  cases ht : GMMEstimator.runObjectiveTrace { est with z := z, y := y, x := x } evals with
  | none => rfl
  | some t =>
    have hopt1 : ({ est with z := z, y := y, x := x } : GMMEstimator n L k).opt = "scipy" ∨
        ({ est with z := z, y := y, x := x } : GMMEstimator n L k).opt = "torch" := hopt
    have htst := trace_some_state hopt1 ht
    have hopta : ({ t with theta := xres } : GMMEstimator n L k).opt = "scipy" ∨
        ({ t with theta := xres } : GMMEstimator n L k).opt = "torch" := by
      rw [htst]; exact hopt
    have hj : ({ t with theta := xres } : GMMEstimator n L k).jacobian_moment_cond.1 =
        fitJacobian est z y x xres := by
      rcases hopt with h | h
      · have hsa : ({ t with theta := xres } : GMMEstimator n L k).opt = "scipy" := by
          rw [htst]; exact h
        rw [jacobian_moment_cond_scipy _ hsa, htst]
        unfold fitJacobian
        rw [if_pos h]
      · have hta : ({ t with theta := xres } : GMMEstimator n L k).opt = "torch" := by
          rw [htst]; exact h
        rw [jacobian_moment_cond_torch _ hta, htst]
        unfold fitJacobian
        rw [if_neg (fun hc => absurd (hc.symm.trans h) (by decide))]
    simp only [Option.map_some']
    congr 1
    rw [covariance_block_eq, jacobian_moment_cond_W,
      jacobian_moment_cond_state _ hopta, hj, htst]
    cases hnp : np_linalg_inv (((fitJacobian est z y x xres)ᵀ *
        ({ { est with z := z, y := y, x := x } with W := t.W } : GMMEstimator n L k).W :
        Matrix (Fin k) (Fin L) ℚ) * fitJacobian est z y x xres) <;> rfl

/-- C8: whenever fit produces standard errors at all (they are not the
unavailable value), every entry denotes a non-negative real number — in
particular no entry is the NaN that numpy.sqrt would produce on a negative
radicand.  The minimizer is assumed to evaluate the objective at least once,
which scipy.optimize.minimize and torchmin.minimize always do. -/
theorem claim_C8 {n L k : ℕ} (est : GMMEstimator n L k)
    (z : Matrix (Fin n) (Fin L) ℚ) (y : Fin n → ℚ) (x : Matrix (Fin n) (Fin k) ℚ)
    (evals : List (Fin k → ℚ)) (xres : Fin k → ℚ)
    (hne : evals ≠ []) :
    ∀ i : Fin k, ((est.fit z y x evals xres).bind (fun r => r.std_errors)).elim True
      (fun s => (s i).isNonnegReal) := by
  intro i
  unfold GMMEstimator.fit
  by_cases hopt : est.opt = "scipy" ∨ est.opt = "torch"
  · rw [if_pos hopt]
    cases ht : GMMEstimator.runObjectiveTrace { est with z := z, y := y, x := x } evals with
    | none => exact trivial
    | some t =>
      simp only [Option.map_some', Option.some_bind]
      have hopt1 : ({ est with z := z, y := y, x := x } : GMMEstimator n L k).opt = "scipy" ∨
          ({ est with z := z, y := y, x := x } : GMMEstimator n L k).opt = "torch" := hopt
      have hpsd : IsPSD t.W := trace_W_psd hopt1 ht (Or.inr hne)
      cases hs : ({ t with theta := xres } : GMMEstimator n L k).covariance_block.std_errors with
      | none => exact trivial
      | some s => exact covariance_block_std { t with theta := xres } hpsd hs i
  · rw [if_neg hopt]
    exact trivial

/-- Witness for C8 at a concrete instance: one identity-weighted scipy fit on
z = x = [[1]], y = [1], with one objective evaluation; the produced standard
error is sqrt(1 · 1), whose entry denotes a non-negative real. -/
theorem claim_C8_witness :
    ((({ Ebase with weighting_matrix := "identity" } : GMMEstimator 1 1 1).fit
        !![1] ![1] !![1] [![0]] ![1]).bind (fun r => r.std_errors)).elim True
      (fun s => (s 0).isNonnegReal) :=
  claim_C8 { Ebase with weighting_matrix := "identity" } !![1] ![1] !![1] [![0]] ![1]
    (List.cons_ne_nil _ _) 0

/-- C7, amended: a call of fit on any prior fit state produces the same
observable fit view — point estimate theta, weighting matrix W, Jacobian
Gamma, and standard errors — as the same call on any other prior fit state:
those four attributes are fully overwritten, with no leakage (the covariance
matrix vθ is not part of this view; see the counterexample). -/
theorem claim_C7_amended {n L k : ℕ} (est : GMMEstimator n L k)
    (W0 : Matrix (Fin L) (Fin L) ℚ) (th : Fin k → ℚ)
    (G0 J0 : Matrix (Fin L) (Fin k) ℚ) (V0 : Matrix (Fin k) (Fin k) ℚ)
    (se : Option (Fin k → NpSqrtVal))
    (z : Matrix (Fin n) (Fin L) ℚ) (y : Fin n → ℚ) (x : Matrix (Fin n) (Fin k) ℚ)
    (evals : List (Fin k → ℚ)) (xres : Fin k → ℚ)
    (hopt : est.opt = "scipy" ∨ est.opt = "torch") (hne : evals ≠ []) :
    ((est.withFitState W0 th G0 J0 V0 se).fit z y x evals xres).map fitView =
      (est.fit z y x evals xres).map fitView := by
  unfold GMMEstimator.fit
  have hoptB : (est.withFitState W0 th G0 J0 V0 se).opt = "scipy" ∨
      (est.withFitState W0 th G0 J0 V0 se).opt = "torch" := hopt
  rw [if_pos hoptB, if_pos hopt]
  have hBA : ({ est.withFitState W0 th G0 J0 V0 se with z := z, y := y, x := x } :
      GMMEstimator n L k) =
      ({ est with z := z, y := y, x := x } : GMMEstimator n L k).withFitState W0 th G0 J0 V0 se :=
    rfl
  rw [hBA]
  have hopt1 : ({ est with z := z, y := y, x := x } : GMMEstimator n L k).opt = "scipy" ∨
      ({ est with z := z, y := y, x := x } : GMMEstimator n L k).opt = "torch" := hopt
  have hT := trace_W_congr evals { est with z := z, y := y, x := x } W0 th G0 J0 V0 se hopt1
    (Or.inl hne)
  cases hta : GMMEstimator.runObjectiveTrace ({ est with z := z, y := y, x := x } :
      GMMEstimator n L k) evals with
  | none =>
    rw [hta] at hT
    have htb : ((({ est with z := z, y := y, x := x } : GMMEstimator n L k).withFitState
        W0 th G0 J0 V0 se).runObjectiveTrace evals) = none := by
      rcases hopt3 : ((({ est with z := z, y := y, x := x } : GMMEstimator n L k).withFitState
          W0 th G0 J0 V0 se).runObjectiveTrace evals) with _ | tb
      · rfl
      · rw [hopt3] at hT; simp at hT
    rw [htb]
  | some ta =>
    rw [hta] at hT
    have hex : ∃ tb, ((({ est with z := z, y := y, x := x } : GMMEstimator n L k).withFitState
        W0 th G0 J0 V0 se).runObjectiveTrace evals) = some tb ∧ tb.W = ta.W := by
      rcases htb : ((({ est with z := z, y := y, x := x } : GMMEstimator n L k).withFitState
          W0 th G0 J0 V0 se).runObjectiveTrace evals) with _ | tb
      · rw [htb] at hT; simp at hT
      · rw [htb] at hT
        simp only [Option.map_some', Option.some.injEq] at hT
        exact ⟨tb, rfl, hT⟩
    rcases hex with ⟨tb, htb, hW⟩
    rw [htb]
    simp only [Option.map_some']
    have hopt2 : (({ est with z := z, y := y, x := x } : GMMEstimator n L k).withFitState
        W0 th G0 J0 V0 se).opt = "scipy" ∨
        (({ est with z := z, y := y, x := x } : GMMEstimator n L k).withFitState
        W0 th G0 J0 V0 se).opt = "torch" := hopt
    have hta2 := trace_some_state hopt1 hta
    have htb2 := trace_some_state hopt2 htb
    have key : ({ tb with theta := xres } : GMMEstimator n L k) =
        ({ ta with theta := xres } : GMMEstimator n L k).withFitState
          ({ ta with theta := xres } : GMMEstimator n L k).W
          ({ ta with theta := xres } : GMMEstimator n L k).theta G0 J0 V0 se := by
      rw [htb2, hta2, ← hW]
      simp [GMMEstimator.withFitState]
    have hopta : ({ ta with theta := xres } : GMMEstimator n L k).opt = "scipy" ∨
        ({ ta with theta := xres } : GMMEstimator n L k).opt = "torch" := by
      rw [hta2]; exact hopt
    rw [key]
    exact congrArg some (covariance_block_view { ta with theta := xres } hopta G0 J0 V0 se)

/-- A single-evaluation fit under a non-"optimal" weighting configuration on
the scipy backend: data staged, identity weighting matrix stored by the one
objective evaluation, converged point stored, covariance block run. -/
theorem fit_one_eval_nonoptimal_scipy {n L k : ℕ} (est : GMMEstimator n L k)
    (z : Matrix (Fin n) (Fin L) ℚ) (y : Fin n → ℚ) (x : Matrix (Fin n) (Fin k) ℚ)
    (b xr : Fin k → ℚ)
    (hs : est.opt = "scipy") (hw : est.weighting_matrix ≠ "optimal") :
    est.fit z y x [b] xr =
      some (({ est with z := z, y := y, x := x, W := 1, theta := xr } :
        GMMEstimator n L k).covariance_block) := by
  unfold GMMEstimator.fit
  rw [if_pos (Or.inl hs)]
  have h1 : ({ est with z := z, y := y, x := x } : GMMEstimator n L k).opt = "scipy" ∨
      ({ est with z := z, y := y, x := x } : GMMEstimator n L k).opt = "torch" := Or.inl hs
  have hobj := gmm_objective_char ({ est with z := z, y := y, x := x } : GMMEstimator n L k) b h1
  rw [if_neg hw] at hobj
  unfold GMMEstimator.runObjectiveTrace
  rw [hobj]
  simp only [Option.map_some']
  unfold GMMEstimator.runObjectiveTrace
  rfl

theorem np_linalg_inv_one : np_linalg_inv !![(1 : ℚ)] = some !![1] := by
  unfold np_linalg_inv
  rw [if_neg (by simp [Matrix.det_fin_one])]
  rw [Matrix.det_fin_one, Matrix.adjugate_fin_one]
  norm_num
  ext i j
  fin_cases i; fin_cases j; simp

theorem np_linalg_inv_zero : np_linalg_inv !![(0 : ℚ)] = none := by
  unfold np_linalg_inv
  rw [if_pos (by simp [Matrix.det_fin_one])]

theorem covariance_block_A7 : A7.covariance_block = R7 := by
  have hs7 : A7.opt = "scipy" := rfl
  have hj : A7.jacobian_moment_cond.1 = !![-1] := by
    rw [jacobian_moment_cond_scipy _ hs7]
    show -(A7.zᵀ * A7.x) = !![-1]
    ext i j
    fin_cases i; fin_cases j
    simp [A7, E7, Ebase, Matrix.mul_apply]
  rw [covariance_block_eq, jacobian_moment_cond_W, jacobian_moment_cond_state _ (Or.inl hs7), hj]
  have hgwg : ((!![(-1 : ℚ)]ᵀ * A7.W : Matrix (Fin 1) (Fin 1) ℚ) * !![(-1 : ℚ)]) = !![1] := by
    rw [show A7.W = 1 from rfl]
    ext i j
    fin_cases i; fin_cases j
    simp [Matrix.mul_apply]
  rw [hgwg, np_linalg_inv_one]
  rfl

theorem fit_first_C7 : E7.fit !![1] ![1] !![1] [![0]] ![1] = some R7 := by
  rw [fit_one_eval_nonoptimal_scipy E7 !![1] ![1] !![1] ![0] ![1] rfl (by decide)]
  show some A7.covariance_block = some R7
  rw [covariance_block_A7]

theorem covariance_block_B7 : B7.covariance_block = R7b := by
  have hs7 : B7.opt = "scipy" := rfl
  have hj : B7.jacobian_moment_cond.1 = !![0] := by
    rw [jacobian_moment_cond_scipy _ hs7]
    show -(B7.zᵀ * B7.x) = !![0]
    ext i j
    fin_cases i; fin_cases j
    simp [B7, R7, A7, E7, Ebase, Matrix.mul_apply]
  rw [covariance_block_eq, jacobian_moment_cond_W, jacobian_moment_cond_state _ (Or.inl hs7), hj]
  have hgwg : ((!![(0 : ℚ)]ᵀ * B7.W : Matrix (Fin 1) (Fin 1) ℚ) * !![(0 : ℚ)]) = !![0] := by
    rw [show B7.W = 1 from rfl]
    ext i j
    fin_cases i; fin_cases j
    simp [Matrix.mul_apply]
  rw [hgwg, np_linalg_inv_zero]
  rfl

theorem fit_second_C7 : R7.fit !![1] ![1] !![0] [![0]] ![2] = some R7b := by
  rw [fit_one_eval_nonoptimal_scipy R7 !![1] ![1] !![0] ![0] ![2] rfl (by decide)]
  show some B7.covariance_block = some R7b
  rw [covariance_block_B7]

/-- Counterexample to C7 as stated: on the estimator E7 (initial vθ = 0), a
first fit on data z = x = [[1]], y = [1] stores vθ = [[1]]; a second fit on
the same instance, with data x = [[0]] that makes the covariance inversion
fail, completes with std_errors = None — yet afterwards the instance still
holds vθ = [[1]], the value computed by the earlier fit.  So a value from the
earlier fit remains observable after the later one when the later covariance
computation fails: the second call does not overwrite all fit state. -/
theorem claim_C7_counterexample :
    ((E7.fit !![1] ![1] !![1] [![0]] ![1]).bind
        (fun r1 => r1.fit !![1] ![1] !![0] [![0]] ![2])).map
      (fun r2 => (r2.vθ 0 0, r2.std_errors)) = some (1, none) ∧
    (E7.fit !![1] ![1] !![1] [![0]] ![1]).map (fun r1 => r1.vθ 0 0) = some 1 ∧
    E7.vθ 0 0 = 0 := by
  refine ⟨?_, ?_, ?_⟩
  · rw [fit_first_C7]
    simp only [Option.some_bind]
    rw [fit_second_C7]
    simp only [Option.map_some', Option.some.injEq]
    refine Prod.ext ?_ rfl
    show R7.vθ 0 0 = 1
    simp [R7]
  · rw [fit_first_C7]
    simp only [Option.map_some', Option.some.injEq]
    show R7.vθ 0 0 = 1
    simp [R7]
  · rfl

/-- Witness for C4 at the concrete identity-weighted scipy instance E7. -/
theorem claim_C4_witness :
    E7.fit !![1] ![1] !![1] [![0]] ![1] =
      (GMMEstimator.runObjectiveTrace
          ({ moment_cond := E7.moment_cond, jacfwd := E7.jacfwd,
             weighting_matrix := E7.weighting_matrix, opt := E7.opt, z := !![1], y := ![1],
             x := !![1], W := E7.W, theta := E7.theta, Gamma := E7.Gamma,
             jac_est := E7.jac_est, vθ := E7.vθ, std_errors := E7.std_errors } :
            GMMEstimator 1 1 1) [![0]]).map
        (fun t =>
          (np_linalg_inv (((fitJacobian E7 !![1] ![1] !![1] ![1])ᵀ * t.W :
              Matrix (Fin 1) (Fin 1) ℚ) * fitJacobian E7 !![1] ![1] !![1] ![1])).elim
            { t with
              theta := ![1]
              Gamma := fitJacobian E7 !![1] ![1] !![1] ![1]
              jac_est := fitJacobian E7 !![1] ![1] !![1] ![1]
              std_errors := none }
            (fun v =>
              { t with
                theta := ![1]
                Gamma := fitJacobian E7 !![1] ![1] !![1] ![1]
                jac_est := fitJacobian E7 !![1] ![1] !![1] ![1]
                vθ := v
                std_errors := some fun i => np_sqrt (((1 : ℕ) : ℚ) * v i i) })) :=
  claim_C4 E7 !![1] ![1] !![1] [![0]] ![1] (Or.inl rfl)

/-- Witness for C6 at the concrete instance E7 with data x = [[0]] that makes
the covariance inversion fail: fit still completes, theta is stored, and the
standard errors degrade to None exactly as the inversion map records. -/
theorem claim_C6_witness :
    ((E7.fit !![1] ![1] !![0] [![0]] ![2]).isSome ↔
      (GMMEstimator.runObjectiveTrace
        ({ E7 with z := !![1], y := ![1], x := !![0] } : GMMEstimator 1 1 1) [![0]]).isSome) ∧
    (E7.fit !![1] ![1] !![0] [![0]] ![2]).map (fun r => r.theta) =
      (GMMEstimator.runObjectiveTrace
        ({ E7 with z := !![1], y := ![1], x := !![0] } : GMMEstimator 1 1 1) [![0]]).map
        (fun _ => ![2]) ∧
    (E7.fit !![1] ![1] !![0] [![0]] ![2]).map (fun r => r.std_errors) =
      (GMMEstimator.runObjectiveTrace
        ({ E7 with z := !![1], y := ![1], x := !![0] } : GMMEstimator 1 1 1) [![0]]).map
        (fun t =>
          (np_linalg_inv ((({ t with theta := ![2] } : GMMEstimator 1 1 1).jacobian_moment_cond.1ᵀ *
              t.W : Matrix (Fin 1) (Fin 1) ℚ) *
              ({ t with theta := ![2] } : GMMEstimator 1 1 1).jacobian_moment_cond.1)).map
            (fun v => fun i => np_sqrt (((1 : ℕ) : ℚ) * v i i))) :=
  claim_C6 E7 !![1] ![1] !![0] [![0]] ![2] (Or.inl rfl)

/-- Witness for the amended C7 at the concrete instance E7 with an arbitrary
nonzero prior fit state. -/
theorem claim_C7_amended_witness :
    ((E7.withFitState !![3] ![7] !![2] !![2] !![9] (some fun _ => NpSqrtVal.nan)).fit
        !![1] ![1] !![1] [![0]] ![1]).map fitView =
      (E7.fit !![1] ![1] !![1] [![0]] ![1]).map fitView :=
  claim_C7_amended E7 !![3] ![7] !![2] !![2] !![9] (some fun _ => NpSqrtVal.nan)
    !![1] ![1] !![1] [![0]] ![1] (Or.inl rfl) (List.cons_ne_nil _ _)

